import Mathlib

/-!
Verification development for the celesti_track N-body integration engine.

The force model and the integrator variants (src/integrators.py) are embedded
over the reals: float64 values are idealised as real numbers, `np.sqrt` as
`Real.sqrt`, and numpy elementwise array arithmetic as pointwise operations on
`Fin n → Fin 3 → ℝ`.  The simulator bookkeeping (src/simulation.py) is embedded
over the rationals (every float is a rational, and the bookkeeping claims are
about exact arithmetic), with the configured integrator's `step` passed as a
function parameter, mirroring the dynamic dispatch `self.integrator.step`.
-/

/-- A 3-vector of reals, modelling one row of an N×3 float64 numpy array. -/
abbrev Vec3R := Fin 3 → ℝ

/-- Euclidean magnitude of a 3-vector, as computed in `calc_acceleration`:
`np.sqrt(r_vec[0]**2 + r_vec[1]**2 + r_vec[2]**2)`. -/
noncomputable def vnorm (v : Vec3R) : ℝ :=
  Real.sqrt (v 0 ^ 2 + v 1 ^ 2 + v 2 ^ 2)

/-- One iteration of the inner loop body of `calc_acceleration`
(src/integrators.py lines 26-32): for `i != j`, with
`r_vec = positions[j] - positions[i]`, `r_mag = sqrt(...)`,
`r_hat = r_vec / r_mag`, `force_magnitude = G * masses[i] * masses[j] / r_mag**2`,
the accumulated contribution is `force_magnitude * r_hat / masses[i]`;
for `i = j` the loop body is skipped, contributing zero. -/
noncomputable def accPair {n : ℕ} (G : ℝ) (positions : Fin n → Vec3R) (masses : Fin n → ℝ)
    (i j : Fin n) : Vec3R :=
  if i ≠ j then
    (masses i)⁻¹ •
      ((G * masses i * masses j / (vnorm (positions j - positions i)) ^ 2) •
        ((vnorm (positions j - positions i))⁻¹ • (positions j - positions i)))
  else 0

/-- The numba force model `calc_acceleration` (src/integrators.py lines 21-33):
`acc[i]` accumulates the pair contribution over all `j`. -/
noncomputable def calc_acceleration {n : ℕ} (G : ℝ) (positions : Fin n → Vec3R)
    (masses : Fin n → ℝ) : Fin n → Vec3R :=
  fun i => ∑ j, accPair G positions masses i j

/-- The historical numpy force model `numpy_calc_acceleration`
(src/integrators.py lines 6-18).  `r_vec[i, j] = positions[i] - positions[j]`;
`r_mag_with_inf` replaces a zero separation by `inf`, so that the unit vector
entry (`x / inf = 0`) and the force magnitude (`G·m·m / inf² = 0`) are exactly
zero there — encoded by the zero branches of the two conditionals.
`np.fill_diagonal(force_magnitudes, 0)` zeroes the `i = j` entry, and
`acc = total_forces / masses[:, np.newaxis]` divides row `i` by `masses[i]`. -/
noncomputable def numpy_calc_acceleration {n : ℕ} (G : ℝ) (positions : Fin n → Vec3R)
    (masses : Fin n → ℝ) : Fin n → Vec3R :=
  fun i =>
    (masses i)⁻¹ •
      ∑ j,
        (if i = j then 0
         else if vnorm (positions i - positions j) = 0 then 0
         else G * masses j * masses i / (vnorm (positions i - positions j)) ^ 2) •
        (if vnorm (positions i - positions j) = 0 then (0 : Vec3R)
         else (vnorm (positions i - positions j))⁻¹ • (positions i - positions j))

/-- `RK4Integrator.step` (src/integrators.py lines 48-73), translated
statement by statement; the successive reassignments of `next_pos`/`next_vel`
become numbered bindings. -/
noncomputable def rk4_step {n : ℕ} (G dt : ℝ) (positions velocities : Fin n → Vec3R)
    (masses : Fin n → ℝ) : (Fin n → Vec3R) × (Fin n → Vec3R) :=
  let k1_vel := calc_acceleration G positions masses
  let k1_pos := velocities
  let next_pos1 := positions + ((0.5 : ℝ) * dt) • k1_pos
  let next_vel1 := velocities + ((0.5 : ℝ) * dt) • k1_vel
  let k2_vel := calc_acceleration G next_pos1 masses
  let k2_pos := next_vel1
  let next_pos2 := positions + ((0.5 : ℝ) * dt) • k2_pos
  let next_vel2 := velocities + ((0.5 : ℝ) * dt) • k2_vel
  let k3_vel := calc_acceleration G next_pos2 masses
  let k3_pos := next_vel2
  let next_pos3 := positions + dt • k3_pos
  let next_vel3 := velocities + dt • k3_vel
  let k4_vel := calc_acceleration G next_pos3 masses
  let k4_pos := next_vel3
  (positions + (dt / 6) • (k1_pos + (2 : ℝ) • k2_pos + (2 : ℝ) • k3_pos + k4_pos),
   velocities + (dt / 6) • (k1_vel + (2 : ℝ) • k2_vel + (2 : ℝ) • k3_vel + k4_vel))

/-- The classical RK4 update exactly as the specification states it, over an
abstract force model `a`; the body contains exactly four evaluations of `a`. -/
noncomputable def rk4_spec {n : ℕ} (a : (Fin n → Vec3R) → (Fin n → Vec3R)) (dt : ℝ)
    (x v : Fin n → Vec3R) : (Fin n → Vec3R) × (Fin n → Vec3R) :=
  let k1_v := a x
  let k1_x := v
  let k2_v := a (x + ((0.5 : ℝ) * dt) • k1_x)
  let k2_x := v + ((0.5 : ℝ) * dt) • k1_v
  let k3_v := a (x + ((0.5 : ℝ) * dt) • k2_x)
  let k3_x := v + ((0.5 : ℝ) * dt) • k2_v
  let k4_v := a (x + dt • k3_x)
  let k4_x := v + dt • k3_v
  (x + (dt / 6) • (k1_x + (2 : ℝ) • k2_x + (2 : ℝ) • k3_x + k4_x),
   v + (dt / 6) • (k1_v + (2 : ℝ) • k2_v + (2 : ℝ) • k3_v + k4_v))

/-- `EulerIntegrator.step` (src/integrators.py lines 81-86): the velocity is
updated first, and the position update uses the new velocity. -/
noncomputable def euler_step {n : ℕ} (G dt : ℝ) (positions velocities : Fin n → Vec3R)
    (masses : Fin n → ℝ) : (Fin n → Vec3R) × (Fin n → Vec3R) :=
  let new_velocities := velocities + dt • calc_acceleration G positions masses
  let new_positions := positions + dt • new_velocities
  (new_positions, new_velocities)

/-- The explicit Euler update exactly as the specification states it
(`v' = v + dt·a(x, m)`, `x' = x + dt·v'`), over an abstract force model `a`;
the body contains exactly one evaluation of `a`. -/
noncomputable def euler_spec {n : ℕ} (a : (Fin n → Vec3R) → (Fin n → Vec3R)) (dt : ℝ)
    (x v : Fin n → Vec3R) : (Fin n → Vec3R) × (Fin n → Vec3R) :=
  let v' := v + dt • a x
  (x + dt • v', v')

/-- `WHFastIntegrator.step` (src/integrators.py lines 94-95): the body is
`pass`, so the call returns `None` — no updated state is produced. -/
def whfast_step {n : ℕ} (_dt : ℝ) (_positions _velocities : Fin n → Vec3R)
    (_masses : Fin n → ℝ) : Option ((Fin n → Vec3R) × (Fin n → Vec3R)) :=
  none

/-- The specification's force-model contract, written from its words: body `i`
receives, from every other body `j`, the contribution
`(G · m_j / |r_ij|²) · r̂_ij` with `r_ij = pos_j - pos_i` and
`r̂_ij = r_ij / |r_ij|`. -/
noncomputable def spec_pair_sum {n : ℕ} (G : ℝ) (positions : Fin n → Vec3R)
    (masses : Fin n → ℝ) (i : Fin n) : Vec3R :=
  ∑ j in Finset.univ.erase i,
    (G * masses j / (vnorm (positions j - positions i)) ^ 2) •
      ((vnorm (positions j - positions i))⁻¹ • (positions j - positions i))

/-- The magnitude of a 3-vector is unchanged by negation. -/
lemma vnorm_neg (v : Vec3R) : vnorm (-v) = vnorm v := by
  simp [vnorm, Pi.neg_apply, neg_sq]

/-- The magnitude of a separation vector does not depend on its orientation. -/
lemma vnorm_sub_comm (a b : Vec3R) : vnorm (a - b) = vnorm (b - a) := by
  rw [← vnorm_neg (b - a), neg_sub]

/-- The implemented integrator variants. -/
inductive IntegratorKind
  | RK4
  | Euler
deriving DecidableEq

/-- The module-level factory `create_integrator` (src/integrators.py lines
99-107).  A Python function either returns a value or raises: `Except` models
the `raise ValueError`, and the payload is `Option IntegratorKind` because the
`WHFast` branch is `pass`, falling off the end of the function and returning
`None`. -/
def create_integrator (name : String) : Except String (Option IntegratorKind) :=
  if name = "RK4" then Except.ok (some IntegratorKind.RK4)
  else if name = "Euler" then Except.ok (some IntegratorKind.Euler)
  else if name = "WHFast" then Except.ok none
  else Except.error ("Unknown integrator: " ++ name)

namespace Simulator

/-- The method `Simulator._create_integrator` (src/simulation.py lines 41-47):
only `RK4` and `Euler` are recognised; everything else, `WHFast` included,
raises `ValueError("Unknown integrator: ...")`. -/
def create_integrator_method (name : String) : Except String IntegratorKind :=
  if name = "RK4" then Except.ok IntegratorKind.RK4
  else if name = "Euler" then Except.ok IntegratorKind.Euler
  else Except.error ("Unknown integrator: " ++ name)

end Simulator

/-- C5: one `RK4Integrator.step` equals the classical RK4 update of the
specification, instantiated with the force model `calc_acceleration`; the
specification-side definition evaluates the force model exactly four times. -/
theorem rk4_step_is_classical_rk4 {n : ℕ} (G dt : ℝ)
    (positions velocities : Fin n → Vec3R) (masses : Fin n → ℝ) :
    rk4_step G dt positions velocities masses =
      rk4_spec (fun x => calc_acceleration G x masses) dt positions velocities := by
  rfl

/-- C6: one `EulerIntegrator.step` equals the specification's explicit Euler
update `v' = v + dt·a(x, m)`, `x' = x + dt·v'`, instantiated with the force
model `calc_acceleration`; the position update uses the updated velocity, and
the specification-side definition evaluates the force model exactly once. -/
theorem euler_step_is_spec_euler {n : ℕ} (G dt : ℝ)
    (positions velocities : Fin n → Vec3R) (masses : Fin n → ℝ) :
    euler_step G dt positions velocities masses =
      euler_spec (fun x => calc_acceleration G x masses) dt positions velocities := by
  rfl

/-- C1 (amended): for positive masses and pairwise-distinct positions, the
per-pair-loop force model `calc_acceleration` gives body `i` exactly the sum
over `j ≠ i` of `(G · m_j / |r_ij|²) · r̂_ij` — the factor `m_i` introduced in
`force_magnitude` and divided out per pair cancels exactly — and the
self-interaction term `j = i` contributes exactly zero. -/
theorem calc_acceleration_is_pair_sum {n : ℕ} (G : ℝ) (positions : Fin n → Vec3R)
    (masses : Fin n → ℝ)
    (hm : ∀ k, 0 < masses k)
    (hpos : ∀ k l : Fin n, k ≠ l → positions k ≠ positions l)
    (i : Fin n) :
    calc_acceleration G positions masses i = spec_pair_sum G positions masses i
      ∧ accPair G positions masses i i = 0 := by
  have hself : accPair G positions masses i i = 0 := by
    simp [accPair]
  refine ⟨?_, hself⟩
  unfold calc_acceleration spec_pair_sum
  rw [← Finset.add_sum_erase Finset.univ _ (Finset.mem_univ i), hself, zero_add]
  refine Finset.sum_congr rfl ?_
  intro j hj
  have hij : i ≠ j := ((Finset.mem_erase.mp hj).1).symm
  have hmi : masses i ≠ 0 := ne_of_gt (hm i)
  rw [accPair, if_pos hij, smul_smul]
  congr 1
  rw [← mul_div_assoc]
  congr 1
  calc (masses i)⁻¹ * (G * masses i * masses j)
      = ((masses i)⁻¹ * masses i) * (G * masses j) := by ring
    _ = G * masses j := by rw [inv_mul_cancel₀ hmi, one_mul]

/-- C7: for positive masses and pairwise-distinct positions, the per-pair
contribution of `j` on `i` scaled by `m_i` is equal and opposite to the
contribution of `i` on `j` scaled by `m_j` (Newton's third law). -/
theorem accPair_newton_third_law {n : ℕ} (G : ℝ) (positions : Fin n → Vec3R)
    (masses : Fin n → ℝ)
    (hm : ∀ k, 0 < masses k)
    (hpos : ∀ k l : Fin n, k ≠ l → positions k ≠ positions l)
    (i j : Fin n) (hij : i ≠ j) :
    masses i • accPair G positions masses i j =
      -(masses j • accPair G positions masses j i) := by
  have hmi : masses i ≠ 0 := ne_of_gt (hm i)
  have hmj : masses j ≠ 0 := ne_of_gt (hm j)
  simp only [accPair]
  rw [if_pos hij, if_pos (Ne.symm hij)]
  rw [show positions i - positions j = -(positions j - positions i) from (neg_sub _ _).symm]
  rw [vnorm_neg]
  simp only [smul_neg, neg_neg, smul_smul]
  congr 1
  rw [← mul_assoc, mul_inv_cancel₀ hmi, one_mul]
  rw [← mul_assoc, mul_inv_cancel₀ hmj, one_mul]
  ring

/-- A concrete two-body fixture: unit masses at the origin and at (1,0,0). -/
noncomputable def posW : Fin 2 → Vec3R := ![![0, 0, 0], ![1, 0, 0]]

/-- Unit masses for the two-body fixture. -/
noncomputable def massW : Fin 2 → ℝ := ![1, 1]

/-- A degenerate fixture: two bodies at the identical point (1,2,3). -/
noncomputable def posCoincident : Fin 2 → Vec3R := ![![1, 2, 3], ![1, 2, 3]]

/-- Both masses of the fixture are positive. -/
lemma massW_pos : ∀ k : Fin 2, 0 < massW k := by
  intro k
  fin_cases k <;> norm_num [massW]

/-- The two fixture bodies occupy distinct positions. -/
lemma posW_distinct : ∀ k l : Fin 2, k ≠ l → posW k ≠ posW l := by
  intro k l hkl heq
  have h0 := congrFun heq 0
  fin_cases k <;> fin_cases l <;> first
    | exact hkl rfl
    | norm_num [posW] at h0

/-- The fixture separation `posW 0 - posW 1` has magnitude one. -/
lemma vnorm_posW01 : vnorm (posW 0 - posW 1) = 1 := by
  have h : posW 0 - posW 1 = ![(-1 : ℝ), 0, 0] := by
    funext k
    fin_cases k <;> norm_num [posW, Pi.sub_apply]
  rw [h]
  have harg : (![(-1 : ℝ), 0, 0] : Vec3R) 0 ^ 2 + (![(-1 : ℝ), 0, 0] : Vec3R) 1 ^ 2 +
      (![(-1 : ℝ), 0, 0] : Vec3R) 2 ^ 2 = 1 := by
    norm_num
  rw [vnorm, harg, Real.sqrt_one]

/-- The fixture separation `posW 1 - posW 0` has magnitude one. -/
lemma vnorm_posW10 : vnorm (posW 1 - posW 0) = 1 := by
  rw [vnorm_sub_comm, vnorm_posW01]

/-- On the fixture, the numpy force model pushes body 0 away from body 1. -/
lemma numpyW_eval : numpy_calc_acceleration 1 posW massW 0 = ![(-1 : ℝ), 0, 0] := by
  have hv0 : vnorm (posW 0 - posW 0) = 0 := by
    rw [sub_self]
    simp [vnorm]
  funext k
  simp only [numpy_calc_acceleration, Fin.sum_univ_two, hv0, vnorm_posW01]
  norm_num [massW]
  fin_cases k <;> norm_num [posW, Pi.smul_apply, Pi.add_apply, Pi.sub_apply, smul_eq_mul]

/-- On the fixture, the specification's pair sum pulls body 0 toward body 1. -/
lemma specW_eval : spec_pair_sum 1 posW massW 0 = ![(1 : ℝ), 0, 0] := by
  have herase : (Finset.univ.erase (0 : Fin 2)) = {1} := by decide
  funext k
  simp only [spec_pair_sum, herase, Finset.sum_singleton, vnorm_posW10]
  norm_num [massW]
  fin_cases k <;> norm_num [posW, Pi.smul_apply, Pi.sub_apply, smul_eq_mul]

/-- C1 counterexample: on the two-body fixture, the historical numpy variant
`numpy_calc_acceleration` (whose separation vector is `pos_i - pos_j`) does not
equal the claimed sum of `(G · m_j / |r_ij|²) · r̂_ij` contributions — it
returns its negation. -/
theorem numpy_variant_violates_pair_sum :
    ¬ (numpy_calc_acceleration 1 posW massW 0 = spec_pair_sum 1 posW massW 0) := by
  intro h
  rw [numpyW_eval, specW_eval] at h
  have h0 := congrFun h 0
  norm_num at h0

/-- C1 witness: the amended claim instantiated on the two-body fixture. -/
theorem calc_acceleration_is_pair_sum_witness :
    (∀ k : Fin 2, 0 < massW k) ∧ (∀ k l : Fin 2, k ≠ l → posW k ≠ posW l) ∧
      (calc_acceleration 1 posW massW 0 = spec_pair_sum 1 posW massW 0 ∧
        accPair 1 posW massW 0 0 = 0) :=
  ⟨massW_pos, posW_distinct,
    calc_acceleration_is_pair_sum 1 posW massW massW_pos posW_distinct 0⟩

/-- C7 witness: Newton's third law instantiated on the two-body fixture. -/
theorem accPair_newton_third_law_witness :
    (∀ k : Fin 2, 0 < massW k) ∧ (∀ k l : Fin 2, k ≠ l → posW k ≠ posW l) ∧
      ((0 : Fin 2) ≠ 1) ∧
      massW 0 • accPair 1 posW massW 0 1 = -(massW 1 • accPair 1 posW massW 1 0) :=
  ⟨massW_pos, posW_distinct, by decide,
    accPair_newton_third_law 1 posW massW massW_pos posW_distinct 0 1 (by decide)⟩

/-- C4: at coincident coordinates the numpy force model raises nothing and
substitutes an exactly-zero force (the zero separation is mapped to an
infinite distance), returning the all-zero acceleration array instead of a
distinct, catchable error. -/
theorem coincident_bodies_silently_zero :
    numpy_calc_acceleration 1 posCoincident massW = 0 := by
  funext i k
  have hcc : ∀ a b : Fin 2, posCoincident a - posCoincident b = 0 := by
    intro a b
    fin_cases a <;> fin_cases b <;>
      · funext m
        fin_cases m <;> norm_num [posCoincident, Pi.sub_apply]
  have hv : vnorm (0 : Vec3R) = 0 := by
    simp [vnorm]
  simp [numpy_calc_acceleration, hcc, hv, Fin.sum_univ_two]

/-- `Particle` (src/simulation.py lines 10-22) over exact rational scalars
(every float64 value is a rational); the back-reference to the owning
simulation is dropped from the embedding. -/
structure Particle where
  name : Option String
  m : ℚ
  x : ℚ
  y : ℚ
  z : ℚ
  vx : ℚ
  vy : ℚ
  vz : ℚ
deriving DecidableEq

/-- One body's 3-vector of coordinates in a recorded snapshot. -/
abbrev V3 := ℚ × ℚ × ℚ

/-- One snapshot: the per-body rows of an N×3 state array. -/
abbrev Snap := List V3

/-- The signature of an integrator's `step(dt, positions, velocities, masses)`;
the Simulator is polymorphic over it, mirroring `self.integrator.step`. -/
abbrev StepFun := ℚ → Snap → Snap → List ℚ → Snap × Snap

/-- `Simulator` state (src/simulation.py lines 25-37): clock `t`, fixed step
`dt`, the particle ensemble, and the recorded trajectory
`states = ('positions': [...], 'velocities': [...])`.  The gravitational
constant and integrator selection only feed the step function, which the
embedding passes as a parameter. -/
structure Simulator where
  t : ℚ
  dt : ℚ
  particles : List Particle
  statesPos : List Snap
  statesVel : List Snap
deriving DecidableEq

namespace Simulator

/-- `Simulator.add` (src/simulation.py lines 49-52): unconditionally appends a
new particle to the ensemble — there is no precondition check. -/
def add (s : Simulator) (m x y z vx vy vz : ℚ) (name : Option String) : Simulator :=
  { s with particles := s.particles ++ [⟨name, m, x, y, z, vx, vy, vz⟩] }

/-- `total_mass` in `Simulator.move_to_com` (src/simulation.py line 57). -/
def totalMass (s : Simulator) : ℚ :=
  (s.particles.map Particle.m).sum

/-- The local `x` of `Simulator.move_to_com` (src/simulation.py line 58). -/
def comX (s : Simulator) : ℚ :=
  (s.particles.map (fun p => p.m * p.x)).sum / s.totalMass

/-- The local `y` of `Simulator.move_to_com` (src/simulation.py line 59). -/
def comY (s : Simulator) : ℚ :=
  (s.particles.map (fun p => p.m * p.y)).sum / s.totalMass

/-- The local `z` of `Simulator.move_to_com` (src/simulation.py line 60). -/
def comZ (s : Simulator) : ℚ :=
  (s.particles.map (fun p => p.m * p.z)).sum / s.totalMass

/-- `Simulator.move_to_com` (src/simulation.py lines 54-65): subtracts the
mass-weighted centroid from every particle's position. -/
def move_to_com (s : Simulator) : Simulator :=
  { s with particles := s.particles.map (fun p =>
      ⟨p.name, p.m, p.x - s.comX, p.y - s.comY, p.z - s.comZ, p.vx, p.vy, p.vz⟩) }

/-- The positions array built from the ensemble at the start of `run`
(src/simulation.py line 72). -/
def particlePositions (s : Simulator) : Snap :=
  s.particles.map (fun p => (p.x, p.y, p.z))

/-- The velocities array built from the ensemble at the start of `run`
(src/simulation.py line 73). -/
def particleVelocities (s : Simulator) : Snap :=
  s.particles.map (fun p => (p.vx, p.vy, p.vz))

/-- Recording of the initial snapshot when `run` begins at `t = 0`
(src/simulation.py lines 71-75). -/
def recordInitial (s : Simulator) : Simulator :=
  { s with statesPos := s.statesPos ++ [s.particlePositions],
           statesVel := s.statesVel ++ [s.particleVelocities] }

/-- One iteration of the `while self.t < tmax` loop body (src/simulation.py
lines 77-84): step from the last recorded state, advance the clock by `dt`,
append the new snapshot. -/
def stepOnce (step : StepFun) (masses : List ℚ) (s : Simulator) : Simulator :=
  let lastPos := s.statesPos.getLastD []
  let lastVel := s.statesVel.getLastD []
  let nw := step s.dt lastPos lastVel masses
  { s with t := s.t + s.dt,
           statesPos := s.statesPos ++ [nw.1],
           statesVel := s.statesVel ++ [nw.2] }

/-- The `while self.t < tmax` loop, driven by a fuel counter large enough to
reach the loop's own exit condition (see `run_reaches_target`). -/
def runLoop (step : StepFun) (masses : List ℚ) (tmax : ℚ) : ℕ → Simulator → Simulator
  | 0, s => s
  | n + 1, s =>
      if s.t < tmax then runLoop step masses tmax n (stepOnce step masses s) else s

/-- Fuel sufficient for the `while` loop: with step `dt`, exactly
`⌈(tmax - t) / dt⌉` iterations run before `t < tmax` fails. -/
def runFuel (s : Simulator) (tmax : ℚ) : ℕ :=
  (⌈(tmax - s.t) / s.dt⌉).toNat

/-- `Simulator.run` (src/simulation.py lines 67-86): record the initial state
when the clock is at zero, then loop until `t < tmax` fails. -/
def run (s : Simulator) (step : StepFun) (tmax : ℚ) : Simulator :=
  let masses := s.particles.map Particle.m
  let s0 := if s.t = 0 then s.recordInitial else s
  runLoop step masses tmax (s0.runFuel tmax) s0

/-- `Simulator.reset` (src/simulation.py lines 88-91): zero the clock and
discard the trajectory; the ensemble is preserved. -/
def reset (s : Simulator) : Simulator :=
  { s with t := 0, statesPos := [], statesVel := [] }

/-- Python list indexing `l[i]`: a negative index counts from the end; an
index outside `[-len(l), len(l))` raises `IndexError`, modelled as `none`. -/
def pyIndex {α : Type} (l : List α) (i : ℤ) : Option α :=
  let j := if i < 0 then i + l.length else i
  if 0 ≤ j then l[j.toNat]? else none

/-- `Simulator.sample` (src/simulation.py lines 93-94): index the recorded
positions and velocities at each requested index, with Python list-index
semantics; any invalid index raises, modelled as `none`. -/
def sample (s : Simulator) (idxs : List ℤ) : Option (List Snap × List Snap) := do
  let ps ← idxs.mapM (fun i => pyIndex s.statesPos i)
  let vs ← idxs.mapM (fun i => pyIndex s.statesVel i)
  pure (ps, vs)

end Simulator

/-- A trivial concrete integrator step, used to instantiate the polymorphic
simulator on concrete inputs: it repeats the previous snapshot. -/
def stepId : StepFun := fun _ lastPos lastVel _ => (lastPos, lastVel)

/-- A concrete one-body simulator with `dt = 1`, clock at zero and an empty
trajectory. -/
def simOne : Simulator :=
  { t := 0, dt := 1, particles := [⟨none, 1, 0, 0, 0, 0, 0, 0⟩],
    statesPos := [], statesVel := [] }

/-- C3: the module-level selector accepts `'WHFast'` and returns `None`
without raising, the reserved variant's step is a silent no-op returning no
state, and the Simulator's own selector rejects `'WHFast'` — but with a
generic "Unknown integrator" configuration error, not a "not implemented"
signal. -/
theorem whfast_silently_accepted :
    create_integrator "WHFast" = Except.ok none ∧
    whfast_step (n := 1) 1 ![![0, 0, 0]] ![![0, 0, 0]] ![1] = none ∧
    Simulator.create_integrator_method "WHFast" =
      Except.error "Unknown integrator: WHFast" := by
  refine ⟨rfl, rfl, rfl⟩

/-- Each loop iteration appends one snapshot to each trajectory list, advances
the clock by `dt`, and touches nothing else. -/
lemma stepOnce_fields (step : StepFun) (masses : List ℚ) (s : Simulator) :
    (Simulator.stepOnce step masses s).t = s.t + s.dt ∧
    (Simulator.stepOnce step masses s).dt = s.dt ∧
    (Simulator.stepOnce step masses s).particles = s.particles ∧
    (Simulator.stepOnce step masses s).statesPos.length = s.statesPos.length + 1 ∧
    (Simulator.stepOnce step masses s).statesVel.length = s.statesVel.length + 1 := by
  refine ⟨rfl, rfl, rfl, ?_, ?_⟩ <;> simp [Simulator.stepOnce]

/-- When the fuel equals `⌈(tmax - t) / dt⌉` exactly, the loop performs exactly
that many iterations: each trajectory list grows by exactly the fuel. -/
lemma runLoop_length (step : StepFun) (masses : List ℚ) (tmax : ℚ) :
    ∀ (n : ℕ) (s : Simulator), 0 < s.dt → ((n : ℤ) = ⌈(tmax - s.t) / s.dt⌉) →
      (Simulator.runLoop step masses tmax n s).statesPos.length =
          s.statesPos.length + n ∧
      (Simulator.runLoop step masses tmax n s).statesVel.length =
          s.statesVel.length + n := by
  intro n
  induction n with
  | zero =>
    intro s _ _
    simp [Simulator.runLoop]
  | succ n ih =>
    intro s hdt hceil
    have hne : s.dt ≠ 0 := ne_of_gt hdt
    have hceilpos : (0 : ℤ) < ⌈(tmax - s.t) / s.dt⌉ := by
      rw [← hceil]
      exact_mod_cast Nat.succ_pos n
    have hdivpos : 0 < (tmax - s.t) / s.dt := Int.ceil_pos.mp hceilpos
    have hlt : s.t < tmax := by
      have hmul := mul_pos hdivpos hdt
      rw [div_mul_cancel₀ _ hne] at hmul
      linarith
    have hceil' : ((n : ℕ) : ℤ) =
        ⌈(tmax - (Simulator.stepOnce step masses s).t) /
          (Simulator.stepOnce step masses s).dt⌉ := by
      have ht' : (Simulator.stepOnce step masses s).t = s.t + s.dt := rfl
      have hd' : (Simulator.stepOnce step masses s).dt = s.dt := rfl
      have harg : (tmax - (s.t + s.dt)) / s.dt = (tmax - s.t) / s.dt - 1 := by
        field_simp
        ring
      rw [ht', hd', harg, Int.ceil_sub_one, ← hceil]
      push_cast
      ring
    have hunfold : Simulator.runLoop step masses tmax (n + 1) s =
        Simulator.runLoop step masses tmax n (Simulator.stepOnce step masses s) := by
      simp only [Simulator.runLoop]
      rw [if_pos hlt]
    obtain ⟨h1, h2⟩ := ih (Simulator.stepOnce step masses s) hdt hceil'
    obtain ⟨-, -, -, hp1, hv1⟩ := stepOnce_fields step masses s
    rw [hunfold]
    constructor
    · rw [h1, hp1]
      omega
    · rw [h2, hv1]
      omega

/-- The loop never rewrites what is already recorded: the ensemble and the step
size are preserved, and both trajectory lists are only appended to. -/
lemma runLoop_extends (step : StepFun) (masses : List ℚ) (tmax : ℚ) :
    ∀ (n : ℕ) (s : Simulator),
      (Simulator.runLoop step masses tmax n s).particles = s.particles ∧
      (Simulator.runLoop step masses tmax n s).dt = s.dt ∧
      (∃ l, (Simulator.runLoop step masses tmax n s).statesPos = s.statesPos ++ l) ∧
      (∃ l, (Simulator.runLoop step masses tmax n s).statesVel = s.statesVel ++ l) := by
  intro n
  induction n with
  | zero =>
    intro s
    exact ⟨rfl, rfl, ⟨[], by simp [Simulator.runLoop]⟩, ⟨[], by simp [Simulator.runLoop]⟩⟩
  | succ n ih =>
    intro s
    by_cases hlt : s.t < tmax
    · have hunfold : Simulator.runLoop step masses tmax (n + 1) s =
          Simulator.runLoop step masses tmax n (Simulator.stepOnce step masses s) := by
        simp only [Simulator.runLoop]
        rw [if_pos hlt]
      obtain ⟨hp, hd, ⟨lp, hlp⟩, ⟨lv, hlv⟩⟩ := ih (Simulator.stepOnce step masses s)
      have hsp : (Simulator.stepOnce step masses s).statesPos =
          s.statesPos ++ [(step s.dt (s.statesPos.getLastD [])
            (s.statesVel.getLastD []) masses).1] := rfl
      have hsv : (Simulator.stepOnce step masses s).statesVel =
          s.statesVel ++ [(step s.dt (s.statesPos.getLastD [])
            (s.statesVel.getLastD []) masses).2] := rfl
      rw [hunfold]
      refine ⟨hp, hd,
        ⟨[(step s.dt (s.statesPos.getLastD []) (s.statesVel.getLastD []) masses).1] ++ lp, ?_⟩,
        ⟨[(step s.dt (s.statesPos.getLastD []) (s.statesVel.getLastD []) masses).2] ++ lv, ?_⟩⟩
      · rw [hlp, hsp, List.append_assoc]
      · rw [hlv, hsv, List.append_assoc]
    · have hunfold : Simulator.runLoop step masses tmax (n + 1) s = s := by
        simp only [Simulator.runLoop]
        rw [if_neg hlt]
      rw [hunfold]
      exact ⟨rfl, rfl, ⟨[], by simp⟩, ⟨[], by simp⟩⟩

/-- The fuel is always sufficient: with a positive step the loop stops because
its own guard `t < tmax` fails, exactly as the source's `while` loop does. -/
lemma runLoop_exits (step : StepFun) (masses : List ℚ) (tmax : ℚ) :
    ∀ (n : ℕ) (s : Simulator), 0 < s.dt → ⌈(tmax - s.t) / s.dt⌉ ≤ (n : ℤ) →
      ¬ ((Simulator.runLoop step masses tmax n s).t < tmax) := by
  intro n
  induction n with
  | zero =>
    intro s hdt hle
    have hdiv : (tmax - s.t) / s.dt ≤ 0 := by
      have := Int.ceil_le.mp (by exact_mod_cast hle)
      exact_mod_cast this
    have h1 : tmax - s.t ≤ 0 := by
      have hmul := mul_nonpos_of_nonpos_of_nonneg hdiv (le_of_lt hdt)
      rwa [div_mul_cancel₀ _ (ne_of_gt hdt)] at hmul
    simp only [Simulator.runLoop]
    linarith
  | succ n ih =>
    intro s hdt hle
    by_cases hlt : s.t < tmax
    · have hunfold : Simulator.runLoop step masses tmax (n + 1) s =
          Simulator.runLoop step masses tmax n (Simulator.stepOnce step masses s) := by
        simp only [Simulator.runLoop]
        rw [if_pos hlt]
      rw [hunfold]
      apply ih (Simulator.stepOnce step masses s) hdt
      have ht' : (Simulator.stepOnce step masses s).t = s.t + s.dt := rfl
      have hd' : (Simulator.stepOnce step masses s).dt = s.dt := rfl
      have harg : (tmax - (s.t + s.dt)) / s.dt = (tmax - s.t) / s.dt - 1 := by
        field_simp
        ring
      rw [ht', hd', harg, Int.ceil_sub_one]
      omega
    · have hunfold : Simulator.runLoop step masses tmax (n + 1) s = s := by
        simp only [Simulator.runLoop]
        rw [if_neg hlt]
      rw [hunfold]
      exact hlt

/-- With a positive step, `run` only returns once the clock has reached or
passed the target time. -/
lemma run_reaches_target (s : Simulator) (step : StepFun) (tmax : ℚ)
    (hdt : 0 < s.dt) : ¬ ((s.run step tmax).t < tmax) := by
  simp only [Simulator.run]
  by_cases ht : s.t = 0
  · rw [if_pos ht]
    exact runLoop_exits step _ tmax _ s.recordInitial hdt
      (by rw [Simulator.runFuel]; exact Int.self_le_toNat _)
  · rw [if_neg ht]
    exact runLoop_exits step _ tmax _ s hdt
      (by rw [Simulator.runFuel]; exact Int.self_le_toNat _)

/-- C2 (amended): from `t = 0` with an empty trajectory, `run(targetTime)`
records the initial snapshot first and returns a trajectory with exactly
`⌈targetTime / dt⌉ + 1` entries — the `while t < tmax` loop takes
`⌈targetTime / dt⌉` steps; when `dt` divides `targetTime` this is exactly the
original `⌊targetTime / dt⌋ + 1` (final conjunct). -/
theorem run_trajectory_length (step : StepFun) (s : Simulator) (tmax : ℚ)
    (hdt : 0 < s.dt) (htmax : 0 < tmax) (ht : s.t = 0)
    (hsp : s.statesPos = []) (hsv : s.statesVel = []) :
    (s.run step tmax).statesPos.length = (⌈tmax / s.dt⌉).toNat + 1 ∧
    (s.run step tmax).statesVel.length = (⌈tmax / s.dt⌉).toNat + 1 ∧
    (s.run step tmax).statesPos.head? = some s.particlePositions ∧
    (∀ k : ℤ, tmax = k * s.dt →
      (s.run step tmax).statesPos.length = (⌊tmax / s.dt⌋).toNat + 1) := by
  have hrun : s.run step tmax =
      Simulator.runLoop step (s.particles.map Particle.m) tmax
        (s.recordInitial.runFuel tmax) s.recordInitial := by
    simp only [Simulator.run]
    rw [if_pos ht]
  have ht0 : s.recordInitial.t = 0 := ht
  have hdt0 : s.recordInitial.dt = s.dt := rfl
  have hceilpos : (0 : ℤ) < ⌈tmax / s.dt⌉ := Int.ceil_pos.mpr (div_pos htmax hdt)
  have hfuel : s.recordInitial.runFuel tmax = (⌈tmax / s.dt⌉).toNat := by
    rw [Simulator.runFuel, hdt0, ht0, sub_zero]
  have hfuelZ : ((s.recordInitial.runFuel tmax : ℕ) : ℤ) =
      ⌈(tmax - s.recordInitial.t) / s.recordInitial.dt⌉ := by
    rw [hfuel, ht0, hdt0, sub_zero]
    exact Int.toNat_of_nonneg (le_of_lt hceilpos)
  obtain ⟨hL1, hL2⟩ := runLoop_length step (s.particles.map Particle.m) tmax
    (s.recordInitial.runFuel tmax) s.recordInitial hdt hfuelZ
  have hsp0 : s.recordInitial.statesPos = [s.particlePositions] := by
    simp [Simulator.recordInitial, hsp]
  have hsv0 : s.recordInitial.statesVel = [s.particleVelocities] := by
    simp [Simulator.recordInitial, hsv]
  obtain ⟨-, -, ⟨lp, hlp⟩, -⟩ := runLoop_extends step (s.particles.map Particle.m) tmax
    (s.recordInitial.runFuel tmax) s.recordInitial
  have hlen1 : (s.run step tmax).statesPos.length = (⌈tmax / s.dt⌉).toNat + 1 := by
    rw [hrun, hL1, hsp0, hfuel]
    simp only [List.length_singleton]
    omega
  have hlen2 : (s.run step tmax).statesVel.length = (⌈tmax / s.dt⌉).toNat + 1 := by
    rw [hrun, hL2, hsv0, hfuel]
    simp only [List.length_singleton]
    omega
  refine ⟨hlen1, hlen2, ?_, ?_⟩
  · rw [hrun, hlp, hsp0]
    rfl
  · intro k hk
    have hq : tmax / s.dt = (k : ℚ) := by
      rw [hk, mul_div_cancel_right₀ _ (ne_of_gt hdt)]
    rw [hlen1, hq, Int.ceil_intCast, Int.floor_intCast]

/-- How many snapshots `run` records depends only on the clock, the step size
and the target time — not on which integrator step function is dispatched to:
the loop guard reads only `t` and `tmax`, and every iteration appends exactly
one snapshot.  A refutation with one step function therefore transfers to the
code's RK4 and Euler integrators. -/
lemma runLoop_length_ignores_step (step1 step2 : StepFun) (m1 m2 : List ℚ)
    (tmax : ℚ) :
    ∀ (n : ℕ) (s1 s2 : Simulator), s1.t = s2.t → s1.dt = s2.dt →
      s1.statesPos.length = s2.statesPos.length →
      (Simulator.runLoop step1 m1 tmax n s1).statesPos.length =
        (Simulator.runLoop step2 m2 tmax n s2).statesPos.length := by
  intro n
  induction n with
  | zero =>
    intro s1 s2 ht hd hp
    simpa [Simulator.runLoop] using hp
  | succ n ih =>
    intro s1 s2 ht hd hp
    obtain ⟨f1t, f1d, -, f1p, -⟩ := stepOnce_fields step1 m1 s1
    obtain ⟨f2t, f2d, -, f2p, -⟩ := stepOnce_fields step2 m2 s2
    by_cases hlt : s1.t < tmax
    · have hlt2 : s2.t < tmax := ht ▸ hlt
      have h1 : Simulator.runLoop step1 m1 tmax (n + 1) s1 =
          Simulator.runLoop step1 m1 tmax n (Simulator.stepOnce step1 m1 s1) := by
        simp only [Simulator.runLoop]
        rw [if_pos hlt]
      have h2 : Simulator.runLoop step2 m2 tmax (n + 1) s2 =
          Simulator.runLoop step2 m2 tmax n (Simulator.stepOnce step2 m2 s2) := by
        simp only [Simulator.runLoop]
        rw [if_pos hlt2]
      rw [h1, h2]
      apply ih
      · rw [f1t, f2t, ht, hd]
      · rw [f1d, f2d, hd]
      · rw [f1p, f2p, hp]
    · have hlt2 : ¬ s2.t < tmax := ht ▸ hlt
      have h1 : Simulator.runLoop step1 m1 tmax (n + 1) s1 = s1 := by
        simp only [Simulator.runLoop]
        rw [if_neg hlt]
      have h2 : Simulator.runLoop step2 m2 tmax (n + 1) s2 = s2 := by
        simp only [Simulator.runLoop]
        rw [if_neg hlt2]
      rw [h1, h2, hp]

/-- The trajectory length produced by `run` is the same for every integrator
step function. -/
lemma run_length_ignores_step (s : Simulator) (step1 step2 : StepFun) (tmax : ℚ) :
    (s.run step1 tmax).statesPos.length = (s.run step2 tmax).statesPos.length := by
  simp only [Simulator.run]
  exact runLoop_length_ignores_step step1 step2 _ _ tmax _ _ _ rfl rfl rfl

/-- C2 counterexample: with `dt = 1` and `targetTime = 1/2` the `while` loop
still takes one step, so the trajectory has 2 entries while the claimed
formula gives `⌊targetTime / dt⌋ + 1 = 1`; by `run_length_ignores_step` the
same holds under any integrator step function. -/
theorem run_floor_length_refuted :
    (simOne.run stepId (1/2)).statesPos.length = 2 ∧
    (⌊(1/2 : ℚ) / simOne.dt⌋).toNat + 1 = 1 ∧
    ¬ ((simOne.run stepId (1/2)).statesPos.length =
        (⌊(1/2 : ℚ) / simOne.dt⌋).toNat + 1) := by
  have hrun : simOne.run stepId (1/2) =
      Simulator.runLoop stepId (simOne.particles.map Particle.m) (1/2)
        (simOne.recordInitial.runFuel (1/2)) simOne.recordInitial := by
    simp only [Simulator.run]
    rw [if_pos (show simOne.t = 0 from rfl)]
  have hfuel : simOne.recordInitial.runFuel (1/2) = 1 := by
    rw [Simulator.runFuel]
    have h : ⌈((1:ℚ)/2 - simOne.recordInitial.t) / simOne.recordInitial.dt⌉ = 1 := by
      rw [show ((1:ℚ)/2 - simOne.recordInitial.t) / simOne.recordInitial.dt = 1/2 by
        rw [show simOne.recordInitial.t = 0 from rfl, show simOne.recordInitial.dt = 1 from rfl]
        norm_num]
      rw [Int.ceil_eq_iff]
      norm_num
    rw [h]
    rfl
  have hloop : Simulator.runLoop stepId (simOne.particles.map Particle.m) (1/2) 1
      simOne.recordInitial =
      Simulator.stepOnce stepId (simOne.particles.map Particle.m) simOne.recordInitial := by
    simp only [Simulator.runLoop]
    rw [if_pos (show simOne.recordInitial.t < 1/2 by
      rw [show simOne.recordInitial.t = 0 from rfl]
      norm_num)]
  have hlen : (simOne.run stepId (1/2)).statesPos.length = 2 := by
    rw [hrun, hfuel, hloop]
    simp [Simulator.stepOnce, Simulator.recordInitial, simOne]
  have hfloor : (⌊(1/2 : ℚ) / simOne.dt⌋).toNat = 0 := by
    rw [show simOne.dt = 1 from rfl]
    norm_num
  refine ⟨hlen, ?_, ?_⟩
  · rw [hfloor]
  · rw [hlen, hfloor]
    norm_num

/-- C2 witness: the amended trajectory-length claim instantiated at
`dt = 1`, `targetTime = 2` on the concrete one-body simulator. -/
theorem run_trajectory_length_witness :
    (0 : ℚ) < simOne.dt ∧ (0 : ℚ) < 2 ∧ simOne.t = 0 ∧
      simOne.statesPos = [] ∧ simOne.statesVel = [] ∧
      ((simOne.run stepId 2).statesPos.length = (⌈(2 : ℚ) / simOne.dt⌉).toNat + 1 ∧
       (simOne.run stepId 2).statesVel.length = (⌈(2 : ℚ) / simOne.dt⌉).toNat + 1 ∧
       (simOne.run stepId 2).statesPos.head? = some simOne.particlePositions ∧
       (∀ k : ℤ, (2 : ℚ) = k * simOne.dt →
         (simOne.run stepId 2).statesPos.length = (⌊(2 : ℚ) / simOne.dt⌋).toNat + 1)) :=
  ⟨by norm_num [simOne], by norm_num, rfl, rfl, rfl,
    run_trajectory_length stepId simOne 2 (by norm_num [simOne]) (by norm_num) rfl rfl rfl⟩

/-- C10: `run` never writes back to the particles — the ensemble is identical
before and after — and only appends to the already-recorded trajectory;
consequently `reset()` followed by `run` restarts from a snapshot of the
original add-time particle state. -/
theorem run_preserves_particles_and_trajectory (s : Simulator) (step : StepFun)
    (tmax : ℚ) :
    (s.run step tmax).particles = s.particles ∧
    (∃ l, (s.run step tmax).statesPos = s.statesPos ++ l) ∧
    (∃ l, (s.run step tmax).statesVel = s.statesVel ++ l) ∧
    (s.reset.run step tmax).statesPos.head? = some s.particlePositions := by
  have hlast : (s.reset.run step tmax).statesPos.head? = some s.particlePositions := by
    have hrun : s.reset.run step tmax =
        Simulator.runLoop step (s.reset.particles.map Particle.m) tmax
          (s.reset.recordInitial.runFuel tmax) s.reset.recordInitial := by
      simp only [Simulator.run]
      rw [if_pos (show s.reset.t = 0 from rfl)]
    obtain ⟨-, -, ⟨lp, hlp⟩, -⟩ := runLoop_extends step (s.reset.particles.map Particle.m)
      tmax (s.reset.recordInitial.runFuel tmax) s.reset.recordInitial
    rw [hrun, hlp]
    rfl
  by_cases ht : s.t = 0
  · have hrun : s.run step tmax =
        Simulator.runLoop step (s.particles.map Particle.m) tmax
          (s.recordInitial.runFuel tmax) s.recordInitial := by
      simp only [Simulator.run]
      rw [if_pos ht]
    obtain ⟨hp, -, ⟨lp, hlp⟩, ⟨lv, hlv⟩⟩ := runLoop_extends step (s.particles.map Particle.m)
      tmax (s.recordInitial.runFuel tmax) s.recordInitial
    refine ⟨by rw [hrun]; exact hp, ⟨s.particlePositions :: lp, ?_⟩,
      ⟨s.particleVelocities :: lv, ?_⟩, hlast⟩
    · rw [hrun, hlp]
      simp [Simulator.recordInitial]
    · rw [hrun, hlv]
      simp [Simulator.recordInitial]
  · have hrun : s.run step tmax =
        Simulator.runLoop step (s.particles.map Particle.m) tmax
          (s.runFuel tmax) s := by
      simp only [Simulator.run]
      rw [if_neg ht]
    obtain ⟨hp, -, ⟨lp, hlp⟩, ⟨lv, hlv⟩⟩ := runLoop_extends step (s.particles.map Particle.m)
      tmax (s.runFuel tmax) s
    exact ⟨by rw [hrun]; exact hp, ⟨lp, by rw [hrun]; exact hlp⟩,
      ⟨lv, by rw [hrun]; exact hlv⟩, hlast⟩

/-- Splitting a mass-weighted sum of shifted coordinates. -/
lemma sum_map_mul_sub (l : List Particle) (f : Particle → ℚ) (c : ℚ) :
    (l.map (fun p => p.m * (f p - c))).sum =
      (l.map (fun p => p.m * f p)).sum - c * (l.map Particle.m).sum := by
  induction l with
  | nil => simp
  | cons p l ih =>
    simp only [List.map_cons, List.sum_cons, ih]
    ring

/-- Effect of `move_to_com` on the mass-weighted sum of `x` coordinates. -/
lemma move_to_com_weighted_x (s : Simulator) :
    (s.move_to_com.particles.map (fun p => p.m * p.x)).sum =
      (s.particles.map (fun p => p.m * p.x)).sum - s.comX * s.totalMass := by
  simp only [Simulator.move_to_com, List.map_map]
  have hcomp : ((fun p : Particle => p.m * p.x) ∘ (fun p : Particle =>
      (⟨p.name, p.m, p.x - s.comX, p.y - s.comY, p.z - s.comZ,
        p.vx, p.vy, p.vz⟩ : Particle))) =
      fun p : Particle => p.m * (p.x - s.comX) := rfl
  rw [hcomp, sum_map_mul_sub]
  rfl

/-- Effect of `move_to_com` on the mass-weighted sum of `y` coordinates. -/
lemma move_to_com_weighted_y (s : Simulator) :
    (s.move_to_com.particles.map (fun p => p.m * p.y)).sum =
      (s.particles.map (fun p => p.m * p.y)).sum - s.comY * s.totalMass := by
  simp only [Simulator.move_to_com, List.map_map]
  have hcomp : ((fun p : Particle => p.m * p.y) ∘ (fun p : Particle =>
      (⟨p.name, p.m, p.x - s.comX, p.y - s.comY, p.z - s.comZ,
        p.vx, p.vy, p.vz⟩ : Particle))) =
      fun p : Particle => p.m * (p.y - s.comY) := rfl
  rw [hcomp, sum_map_mul_sub]
  rfl

/-- Effect of `move_to_com` on the mass-weighted sum of `z` coordinates. -/
lemma move_to_com_weighted_z (s : Simulator) :
    (s.move_to_com.particles.map (fun p => p.m * p.z)).sum =
      (s.particles.map (fun p => p.m * p.z)).sum - s.comZ * s.totalMass := by
  simp only [Simulator.move_to_com, List.map_map]
  have hcomp : ((fun p : Particle => p.m * p.z) ∘ (fun p : Particle =>
      (⟨p.name, p.m, p.x - s.comX, p.y - s.comY, p.z - s.comZ,
        p.vx, p.vy, p.vz⟩ : Particle))) =
      fun p : Particle => p.m * (p.z - s.comZ) := rfl
  rw [hcomp, sum_map_mul_sub]
  rfl

/-- `move_to_com` does not change the masses. -/
lemma move_to_com_masses (s : Simulator) :
    s.move_to_com.particles.map Particle.m = s.particles.map Particle.m := by
  simp only [Simulator.move_to_com, List.map_map]
  rfl

/-- `move_to_com` does not change the total mass. -/
lemma move_to_com_totalMass (s : Simulator) :
    s.move_to_com.totalMass = s.totalMass := by
  unfold Simulator.totalMass
  rw [move_to_com_masses]

/-- C8: with a non-empty ensemble of positive total mass, `move_to_com` makes
the mass-weighted sum of positions exactly zero in every coordinate (over
exact arithmetic), and applying it a second time changes nothing. -/
theorem move_to_com_zero_and_idempotent (s : Simulator)
    (hne : s.particles ≠ []) (hM : 0 < s.totalMass) :
    ((s.move_to_com.particles.map (fun p => p.m * p.x)).sum = 0 ∧
     (s.move_to_com.particles.map (fun p => p.m * p.y)).sum = 0 ∧
     (s.move_to_com.particles.map (fun p => p.m * p.z)).sum = 0) ∧
    s.move_to_com.move_to_com = s.move_to_com := by
  have hMne : s.totalMass ≠ 0 := ne_of_gt hM
  have hx : (s.move_to_com.particles.map (fun p => p.m * p.x)).sum = 0 := by
    rw [move_to_com_weighted_x, Simulator.comX, Simulator.totalMass,
      div_mul_cancel₀ _ (by rw [← Simulator.totalMass]; exact hMne), sub_self]
  have hy : (s.move_to_com.particles.map (fun p => p.m * p.y)).sum = 0 := by
    rw [move_to_com_weighted_y, Simulator.comY, Simulator.totalMass,
      div_mul_cancel₀ _ (by rw [← Simulator.totalMass]; exact hMne), sub_self]
  have hz : (s.move_to_com.particles.map (fun p => p.m * p.z)).sum = 0 := by
    rw [move_to_com_weighted_z, Simulator.comZ, Simulator.totalMass,
      div_mul_cancel₀ _ (by rw [← Simulator.totalMass]; exact hMne), sub_self]
  refine ⟨⟨hx, hy, hz⟩, ?_⟩
  have hM2 : s.move_to_com.totalMass = s.totalMass := move_to_com_totalMass s
  have hcx : s.move_to_com.comX = 0 := by
    rw [Simulator.comX, hx, hM2, zero_div]
  have hcy : s.move_to_com.comY = 0 := by
    rw [Simulator.comY, hy, hM2, zero_div]
  have hcz : s.move_to_com.comZ = 0 := by
    rw [Simulator.comZ, hz, hM2, zero_div]
  have hdef : s.move_to_com.move_to_com =
      { s.move_to_com with particles := s.move_to_com.particles.map (fun p =>
          ⟨p.name, p.m, p.x - s.move_to_com.comX, p.y - s.move_to_com.comY,
            p.z - s.move_to_com.comZ, p.vx, p.vy, p.vz⟩) } := rfl
  rw [hdef, hcx, hcy, hcz]
  simp only [sub_zero]
  have hmap : s.move_to_com.particles.map (fun p : Particle =>
      (⟨p.name, p.m, p.x, p.y, p.z, p.vx, p.vy, p.vz⟩ : Particle)) =
      s.move_to_com.particles := List.map_id' s.move_to_com.particles
  rw [hmap]

/-- A concrete two-body simulator for the center-of-mass fixture. -/
def simCom : Simulator :=
  { t := 0, dt := 1,
    particles := [⟨none, 1, 1, 2, 3, 0, 0, 0⟩, ⟨none, 3, 5, 6, 7, 0, 0, 0⟩],
    statesPos := [], statesVel := [] }

/-- C8 witness: the center-of-mass claim instantiated on a concrete two-body
ensemble with masses 1 and 3. -/
theorem move_to_com_zero_and_idempotent_witness :
    simCom.particles ≠ [] ∧ 0 < simCom.totalMass ∧
      (((simCom.move_to_com.particles.map (fun p => p.m * p.x)).sum = 0 ∧
        (simCom.move_to_com.particles.map (fun p => p.m * p.y)).sum = 0 ∧
        (simCom.move_to_com.particles.map (fun p => p.m * p.z)).sum = 0) ∧
       simCom.move_to_com.move_to_com = simCom.move_to_com) :=
  ⟨by simp [simCom], by norm_num [Simulator.totalMass, simCom],
    move_to_com_zero_and_idempotent simCom (by simp [simCom])
      (by norm_num [Simulator.totalMass, simCom])⟩

/-- The one-body simulator after `run(1)`: exactly one step has been taken. -/
def simC9 : Simulator := simOne.run stepId 1

/-- Evaluation of `simC9`: the run records the initial snapshot and performs
one loop iteration. -/
lemma simC9_eval : simC9 =
    Simulator.stepOnce stepId (simOne.particles.map Particle.m)
      simOne.recordInitial := by
  show simOne.run stepId 1 = _
  have h0 : simOne.run stepId 1 =
      Simulator.runLoop stepId (simOne.particles.map Particle.m) 1
        (simOne.recordInitial.runFuel 1) simOne.recordInitial := by
    simp only [Simulator.run]
    rw [if_pos (show simOne.t = 0 from rfl)]
  have hfuel : simOne.recordInitial.runFuel 1 = 1 := by
    rw [Simulator.runFuel]
    have h : ⌈((1:ℚ) - simOne.recordInitial.t) / simOne.recordInitial.dt⌉ = 1 := by
      rw [show ((1:ℚ) - simOne.recordInitial.t) / simOne.recordInitial.dt = 1 by
        rw [show simOne.recordInitial.t = 0 from rfl,
          show simOne.recordInitial.dt = 1 from rfl]
        norm_num]
      norm_num
    rw [h]
    rfl
  rw [h0, hfuel]
  simp only [Simulator.runLoop]
  rw [if_pos (show simOne.recordInitial.t < 1 by
    rw [show simOne.recordInitial.t = 0 from rfl]
    norm_num)]

/-- C9: after `run` has taken a step, `add` still appends the body without any
error, and `sample` with the negative index `-1` returns a recorded state
(Python-style indexing from the end) instead of raising. -/
theorem add_and_negative_sample_unchecked :
    (simC9.add 2 1 1 1 0 0 0 none).particles.length = simC9.particles.length + 1 ∧
    0 < simC9.t ∧
    simC9.sample [(-1 : ℤ)] =
      some ([[((0:ℚ), (0:ℚ), (0:ℚ))]], [[((0:ℚ), (0:ℚ), (0:ℚ))]]) := by
  refine ⟨?_, ?_, ?_⟩
  · simp [Simulator.add]
  · rw [simC9_eval,
      show (Simulator.stepOnce stepId (simOne.particles.map Particle.m)
        simOne.recordInitial).t = 0 + 1 from rfl]
    norm_num
  · rw [simC9_eval]
    rfl
